import Mathlib

/-
  Verification of the two-asset rebalancing portfolio core
  (simulation engine, metrics engine, result cache fingerprint, grid search)
  against its natural-language specification.

  The simulation and cache logic are embedded over the exact rationals;
  the source's floating-point arithmetic is idealised as exact arithmetic
  (the spec itself states its equalities "within floating-point tolerance").
  Division by zero in the source is IEEE division (inf/nan); in the rational
  embedding it yields 0.  Theorems below avoid relying on such cases except
  where explicitly noted in a doc comment.
-/

set_option maxHeartbeats 1000000

/-- Which branch of the per-timestep rebalance conditional was taken.
Mirrors the conditional structure of the source timestep processor
(gate on a positive rebalance rate, then sell-asset-1 / sell-asset-2 / no trade). -/
inductive RebalBranch where
  | noTrade
  | sellT1
  | sellT2
deriving DecidableEq, Repr

/-- One row of the simulation output: asset-1 cash, asset-2 cash, the signed
rebalance amount recorded for that timestep, plus the branch indicator. -/
structure StepResult where
  t1Cash : ℚ
  t2Cash : ℚ
  rebal : ℚ
  branch : RebalBranch
deriving DecidableEq, Repr

/-- Source rebalance-by-selling-asset-1 helper: delta is pct over the target
allocation, the sell amount moves asset-1 cash down to target.  Returns
(recorded rebalance amount, new asset-1 cash, new asset-2 cash). -/
def rebalanceSellT1 (t1C t2C pct alloc : ℚ) : ℚ × ℚ × ℚ :=
  let delta := pct / alloc
  let sell := t1C - t1C / delta
  (sell, t1C - sell, t2C + sell)

/-- Source rebalance-by-selling-asset-2 helper: delta is (1 - pct) over
(1 - target allocation); the recorded amount is the negated sell. -/
def rebalanceSellT2 (t1C t2C pct alloc : ℚ) : ℚ × ℚ × ℚ :=
  let delta := (1 - pct) / (1 - alloc)
  let sell := t2C - t2C / delta
  (-sell, t1C + sell, t2C - sell)

/-- Source simple-return computation: (current - previous) / previous, with the
zero-return guard when the previous price is exactly zero. -/
def growthRet (pa pb : ℚ) : ℚ := if pa ≠ 0 then (pb - pa) / pa else 0

/-- Branch logic of the source timestep applied to the post-growth cash pair:
allocation fraction (zero guard for zero total), then the band-triggered
rebalance gated behind a positive rebalance rate. -/
def stepCore (g1 g2 alloc band : ℚ) : StepResult :=
  let total := g1 + g2
  let pct := if total ≠ 0 then g1 / total else 0
  if band > 0 then
    if pct > alloc + band then
      let res := rebalanceSellT1 g1 g2 pct alloc
      ⟨res.2.1, res.2.2, res.1, .sellT1⟩
    else if pct < alloc - band then
      let res := rebalanceSellT2 g1 g2 pct alloc
      ⟨res.2.1, res.2.2, res.1, .sellT2⟩
    else ⟨g1, g2, 0, .noTrade⟩
  else ⟨g1, g2, 0, .noTrade⟩

/-- Source single-timestep processor: simple returns, growth of both positions,
then the branch logic.  Arguments: previous and current prices of both assets,
previous cash of both assets, target allocation (the source's t1_ratio) and
rebalance rate band. -/
def processTimestep (p1a p1b p2a p2b t1Prev t2Prev alloc band : ℚ) : StepResult :=
  stepCore (t1Prev * (1 + growthRet p1a p1b)) (t2Prev * (1 + growthRet p2a p2b))
    alloc band

/-- Timesteps 1..n-1 of the simulation loop: threads the previous cash pair
through the per-step processor along the lists of consecutive price pairs. -/
def simulateSteps (alloc band : ℚ) :
    ℚ → ℚ → List (ℚ × ℚ) → List (ℚ × ℚ) → List StepResult
  | _, _, [], _ => []
  | _, _, _ :: _, [] => []
  | c1, c2, p1 :: ps1, p2 :: ps2 =>
    let r := processTimestep p1.1 p1.2 p2.1 p2.2 c1 c2 alloc band
    r :: simulateSteps alloc band r.t1Cash r.t2Cash ps1 ps2

/-- Consecutive price pairs (price at i-1, price at i) for i = 1..n-1. -/
def consecutivePairs (xs : List ℚ) : List (ℚ × ℚ) := xs.zip xs.tail

/-- Source strategy runner: row 0 splits the starting cash by the target
allocation; each later row comes from the per-timestep processor.  Defined for
price lists of equal length; the source raises on an empty price array. -/
def runStrategyNumba (t1Prices t2Prices : List ℚ) (alloc band cash : ℚ) :
    List StepResult :=
  let c1 := cash * alloc
  let c2 := cash * (1 - alloc)
  ⟨c1, c2, 0, .noTrade⟩ ::
    simulateSteps alloc band c1 c2 (consecutivePairs t1Prices) (consecutivePairs t2Prices)

/-- One row of the stacked output array: per-asset cash, total cash, rebalance. -/
structure OutputRow where
  t1Cash : ℚ
  t2Cash : ℚ
  totalCash : ℚ
  rebal : ℚ
deriving DecidableEq, Repr

/-- Source output assembly: the total-cash column is the elementwise sum of the
two per-asset cash columns, stacked with the rebalance trace. -/
def runStrategyOutput (t1Prices t2Prices : List ℚ) (alloc band cash : ℚ) :
    List OutputRow :=
  (runStrategyNumba t1Prices t2Prices alloc band cash).map
    (fun r => ⟨r.t1Cash, r.t2Cash, r.t1Cash + r.t2Cash, r.rebal⟩)

/-! ### Metrics engine: drawdown (exact rationals)

The source has two implementations reporting a value under the key
max_drawdown: the metrics module computes the running peak-to-trough decline
(cummax-based), while the monolithic module reports the minimum single-step
percent change of the series. -/

/-- Daily simple returns: (current - previous) / previous for each consecutive
pair, the leading NaN dropped.  Division by a zero previous value is IEEE in
the source; theorems only use series whose relevant values are nonzero. -/
def pctChange (xs : List ℚ) : List ℚ :=
  (xs.zip xs.tail).map (fun p => (p.2 - p.1) / p.1)

/-- Running maximum, continued from an already-seen maximum m. -/
def cummaxAux (m : ℚ) : List ℚ → List ℚ
  | [] => []
  | x :: xs => max m x :: cummaxAux (max m x) xs

/-- Running maximum of a series (pandas cummax). -/
def cummax : List ℚ → List ℚ
  | [] => []
  | x :: xs => x :: cummaxAux x xs

/-- Pointwise drawdown (series - running max) / running max. -/
def drawdownSeries (xs : List ℚ) : List ℚ :=
  (xs.zip (cummax xs)).map (fun p => (p.1 - p.2) / p.2)

/-- Minimum of a series; none models the NaN returned on an empty series. -/
def seriesMin : List ℚ → Option ℚ
  | [] => none
  | x :: xs => some (xs.foldl min x)

/-- Metrics-module max drawdown: minimum of the pointwise drawdown series. -/
def calculateMaxDrawdown (xs : List ℚ) : Option ℚ :=
  seriesMin (drawdownSeries xs)

/-- Monolithic-module value reported under the max_drawdown key: the minimum
single-step percent change of the series. -/
def monolithMaxDrawdown (xs : List ℚ) : Option ℚ :=
  seriesMin (pctChange xs)

/-! ### Metrics engine: Sharpe ratio and CAGR (reals)

The Sharpe and CAGR computations involve square roots and real powers, so they
are embedded over the reals; the source's IEEE arithmetic is idealised as real
arithmetic, and the error-free paths used in theorems avoid NaN/inf cases. -/

noncomputable section

/-- Daily simple returns over the reals (pandas pct_change with the leading
NaN dropped). -/
def pctChangeR (xs : List ℝ) : List ℝ :=
  (xs.zip xs.tail).map (fun p => (p.2 - p.1) / p.1)

/-- Arithmetic mean (pandas Series.mean). -/
def meanR (xs : List ℝ) : ℝ := xs.sum / xs.length

/-- Sample variance with one delta degree of freedom (pandas Series.std
squared, ddof = 1). -/
def sampleVar (xs : List ℝ) : ℝ :=
  ((xs.map (fun x => (x - meanR xs) ^ 2)).sum) / ((xs.length : ℝ) - 1)

/-- Sample standard deviation (pandas Series.std, ddof = 1). -/
def sampleStd (xs : List ℝ) : ℝ := Real.sqrt (sampleVar xs)

/-- Source Sharpe computation: daily simple returns, minus the risk-free rate
over 252; zero when the standard deviation of the excess returns is zero, else
the mean over the standard deviation, annualized by the square root of 252. -/
def calculateSharpe (series : List ℝ) (riskFree : ℝ) : ℝ :=
  let returns := pctChangeR series
  let excess := returns.map (fun r => r - riskFree / 252)
  if sampleStd excess = 0 then 0
  else meanR excess / sampleStd excess * Real.sqrt 252

/-- The Sharpe value produced by the source metrics computation: it invokes the
Sharpe helper without any risk-free-rate argument, so the helper's default of
zero is always used (the metrics function itself accepts no risk-free-rate
parameter, although its grid-search caller passes one). -/
def calculateMetricsSharpe (totalCash : List ℝ) : ℝ := calculateSharpe totalCash 0

/-- The CAGR expression of the source: (last / first) to the power of the
reciprocal of n_years, minus one, where n_years is elapsed days over 365.25. -/
def cagrOf (first last : ℝ) (days : ℤ) : ℝ :=
  (last / first) ^ ((1 : ℝ) / ((days : ℝ) / 365.25)) - 1

/-- Outcome of the CAGR path of the source metrics computation on a nonempty
cash series.  The code performs no domain check: the only raised exception is
the division by zero in 1 / n_years when the elapsed days are exactly zero
(modeled as none); every other input returns a value.  NaN/inf outcomes of the
IEEE power are idealised as real powers; theorems avoid those cases. -/
def calculateMetricsCagr (totalCash : List ℝ) (days : ℤ) : Option ℝ :=
  if days = 0 then none
  else some (cagrOf (totalCash.headD 0) (totalCash.getLastD 0) days)

end

/-! ### Result cache fingerprint

The source fingerprint serializes a seven-key dict with sorted keys and hashes
it with SHA-256.  SHA-256 is collision-resistant, so key equality is compared
on the serialization preimage.  Numeric fields enter as their Python float
repr strings (float formatting is part of the serialization). -/

/-- JSON serialization (sorted keys) of the seven parameters the source
fingerprint hashes: end_date, rebalance_rate, start_date, starting_cash,
t1_ratio, ticker1, ticker2 in sorted order.  String fields are quoted; quote
escaping is not modeled because dates and tickers contain no quotes. -/
def makeParamHashPreimage
    (startDate endDate tk1 tk2 ratioRepr rateRepr cashRepr : String) : String :=
  "\x7b\"end_date\": \"" ++ endDate ++ "\", \"rebalance_rate\": " ++ rateRepr ++
    ", \"start_date\": \"" ++ startDate ++ "\", \"starting_cash\": " ++
    cashRepr ++ ", \"t1_ratio\": " ++ ratioRepr ++ ", \"ticker1\": \"" ++
    tk1 ++ "\", \"ticker2\": \"" ++ tk2 ++ "\"\x7d"

/-- A full parameter context as the spec defines it: the grid pair plus the
fixed simulation context including trade cost and risk-free rate.  Numeric
fields are carried as their float repr strings. -/
structure ParameterPoint where
  startDate : String
  endDate : String
  ticker1 : String
  ticker2 : String
  t1RatioRepr : String
  rebalanceRateRepr : String
  startingCashRepr : String
  tradeCostRepr : String
  riskFreeRateRepr : String
deriving DecidableEq, Repr

/-- The cache key preimage the source derives from a full parameter context:
only the seven fields accepted by the fingerprint function enter; the trade
cost and risk-free rate fields do not. -/
def fingerprintOf (p : ParameterPoint) : String :=
  makeParamHashPreimage p.startDate p.endDate p.ticker1 p.ticker2
    p.t1RatioRepr p.rebalanceRateRepr p.startingCashRepr

/-- The dict keys serialized by the source fingerprint function. -/
def hashedParamFields : List String :=
  ["start_date", "end_date", "ticker1", "ticker2", "t1_ratio",
    "rebalance_rate", "starting_cash"]

/-- Modelled from the spec: the nine fields the spec requires the fingerprint
to cover. -/
def specFingerprintFields : List String :=
  ["start_date", "end_date", "ticker1", "ticker2", "t1_ratio",
    "rebalance_rate", "starting_cash", "trade_cost", "risk_free_rate"]

/-! ### Grid search

The grid loop of the source: outer loop over rebalance rates, inner loop over
allocations; per cell, consult the cache by the parameter fingerprint (for the
fixed context this is determined by the pair), else compute fresh metrics and
stage an insert tuple; one result row is appended either way.  The per-cell
metric computation is abstracted as a function parameter: the completeness
property is about the collation, not the cell values. -/

/-- One output row of the grid search: the grid pair plus the metrics payload
(rateVal is the source's rebalance_rate, allocVal its t1_ratio). -/
structure GridRow (M : Type) where
  rateVal : ℚ
  allocVal : ℚ
  metrics : M
deriving DecidableEq, Repr

/-- Source per-cell processing: cached hit returns the row and stages nothing;
a miss computes fresh metrics, returns the row and stages an insert tuple. -/
def processParams {M : Type} (cache : ℚ × ℚ → Option M)
    (compute : ℚ × ℚ → M) (rate alloc : ℚ) :
    GridRow M × Option (ℚ × ℚ × M) :=
  match cache (rate, alloc) with
  | some m => (⟨rate, alloc, m⟩, none)
  | none =>
    (⟨rate, alloc, compute (rate, alloc)⟩, some (rate, alloc, compute (rate, alloc)))

/-- Source grid loop: rows and staged inserts accumulated over the Cartesian
product, outer loop over rates, inner loop over allocations. -/
def processGrid {M : Type} (cache : ℚ × ℚ → Option M)
    (compute : ℚ × ℚ → M) :
    List ℚ → List ℚ → List (GridRow M) × List (ℚ × ℚ × M)
  | [], _ => ([], [])
  | rate :: rates, allocs =>
    let rest := processGrid cache compute rates allocs
    ((allocs.map (fun alloc => (processParams cache compute rate alloc).1))
        ++ rest.1,
      (allocs.filterMap (fun alloc => (processParams cache compute rate alloc).2))
        ++ rest.2)

/-! ### Algebraic facts about the rebalance branches -/

theorem one_add_growthRet_nonneg {pa pb : ℚ} (ha : 0 ≤ pa) (hb : 0 ≤ pb) :
    0 ≤ 1 + growthRet pa pb := by
  unfold growthRet
  split_ifs with h
  · have hpa : 0 < pa := lt_of_le_of_ne ha (Ne.symm h)
    have : 1 + (pb - pa) / pa = pb / pa := by field_simp
    rw [this]
    positivity
  · norm_num

theorem one_add_growthRet_pos {pa pb : ℚ} (ha : 0 < pa) (hb : 0 < pb) :
    0 < 1 + growthRet pa pb := by
  unfold growthRet
  split_ifs with h
  · have : 1 + (pb - pa) / pa = pb / pa := by field_simp
    rw [this]
    positivity
  · norm_num

theorem sellT1_div_eval (g1 g2 a : ℚ) (_hT : g1 + g2 ≠ 0) (hg1 : g1 ≠ 0) :
    g1 / (g1 / (g1 + g2) / a) = a * (g1 + g2) := by
  rcases eq_or_ne a 0 with rfl | ha
  · simp
  · field_simp
    ring

theorem sellT2_div_eval (g1 g2 a : ℚ) (hT : g1 + g2 ≠ 0) (hg2 : g2 ≠ 0) :
    g2 / ((1 - g1 / (g1 + g2)) / (1 - a)) = (1 - a) * (g1 + g2) := by
  have hpct : 1 - g1 / (g1 + g2) = g2 / (g1 + g2) := by field_simp
  rw [hpct]
  rcases eq_or_ne a 1 with rfl | ha
  · simp
  · have h1a : 1 - a ≠ 0 := sub_ne_zero.mpr (Ne.symm ha)
    field_simp
    ring

theorem stepCore_total (g1 g2 a b : ℚ) :
    (stepCore g1 g2 a b).t1Cash + (stepCore g1 g2 a b).t2Cash = g1 + g2 := by
  simp only [stepCore, rebalanceSellT1, rebalanceSellT2]
  split_ifs <;> simp <;> ring

theorem stepCore_zero_band (g1 g2 a : ℚ) :
    stepCore g1 g2 a 0 = ⟨g1, g2, 0, .noTrade⟩ := by
  simp [stepCore]

/-- Core safety and exact-restore lemma for one branch step: with nonnegative
post-growth cash and a target allocation in the unit interval, the outputs stay
nonnegative, and whenever a nonzero rebalance is recorded the resulting
asset-1 fraction equals the target allocation exactly. -/
theorem stepCore_spec (g1 g2 a b : ℚ) (hg1 : 0 ≤ g1) (hg2 : 0 ≤ g2)
    (ha0 : 0 ≤ a) (ha1 : a ≤ 1) :
    (0 ≤ (stepCore g1 g2 a b).t1Cash ∧ 0 ≤ (stepCore g1 g2 a b).t2Cash) ∧
      ((stepCore g1 g2 a b).rebal ≠ 0 →
        (stepCore g1 g2 a b).t1Cash /
            ((stepCore g1 g2 a b).t1Cash + (stepCore g1 g2 a b).t2Cash) = a) := by
  by_cases hT : g1 + g2 = 0
  · have e1 : g1 = 0 := by linarith
    have e2 : g2 = 0 := by linarith
    subst e1
    subst e2
    simp only [stepCore, rebalanceSellT1, rebalanceSellT2]
    split_ifs <;> norm_num
  · have hTpos : 0 < g1 + g2 := lt_of_le_of_ne (by linarith) (Ne.symm hT)
    simp only [stepCore, rebalanceSellT1, rebalanceSellT2]
    rw [if_pos hT]
    split_ifs with hb hA hB
    · -- sell-asset-1 branch
      have hg1ne : g1 ≠ 0 := by
        intro h0
        rw [h0] at hA
        rw [zero_div] at hA
        linarith
      dsimp only
      rw [sellT1_div_eval g1 g2 a hT hg1ne]
      refine ⟨⟨?_, ?_⟩, fun _ => ?_⟩
      · have h : g1 - (g1 - a * (g1 + g2)) = a * (g1 + g2) := by ring
        rw [h]
        exact mul_nonneg ha0 (by linarith)
      · have h : g2 + (g1 - a * (g1 + g2)) = (1 - a) * (g1 + g2) := by ring
        rw [h]
        exact mul_nonneg (by linarith) (by linarith)
      · have hnum : g1 - (g1 - a * (g1 + g2)) = a * (g1 + g2) := by ring
        rw [hnum]
        have hden : a * (g1 + g2) + (g2 + (g1 - a * (g1 + g2))) = g1 + g2 := by
          ring
        rw [hden]
        exact mul_div_cancel_right₀ a hT
    · -- sell-asset-2 branch
      have hg2ne : g2 ≠ 0 := by
        intro h0
        have hg1 : g1 ≠ 0 := by
          intro h1
          exact hT (by rw [h0, h1, add_zero])
        rw [h0, add_zero, div_self hg1] at hB
        linarith
      dsimp only
      rw [sellT2_div_eval g1 g2 a hT hg2ne]
      refine ⟨⟨?_, ?_⟩, fun _ => ?_⟩
      · have h : g1 + (g2 - (1 - a) * (g1 + g2)) = a * (g1 + g2) := by ring
        rw [h]
        exact mul_nonneg ha0 (by linarith)
      · have h : g2 - (g2 - (1 - a) * (g1 + g2)) = (1 - a) * (g1 + g2) := by ring
        rw [h]
        exact mul_nonneg (by linarith) (by linarith)
      · have hnum : g1 + (g2 - (1 - a) * (g1 + g2)) = a * (g1 + g2) := by ring
        rw [hnum]
        have hden :
            a * (g1 + g2) + (g2 - (g2 - (1 - a) * (g1 + g2))) = g1 + g2 := by
          ring
        rw [hden]
        exact mul_div_cancel_right₀ a hT
    · exact ⟨⟨hg1, hg2⟩, fun h => absurd rfl h⟩
    · exact ⟨⟨hg1, hg2⟩, fun h => absurd rfl h⟩

theorem processTimestep_spec (p1a p1b p2a p2b c1 c2 alloc band : ℚ)
    (hp1a : 0 ≤ p1a) (hp1b : 0 ≤ p1b) (hp2a : 0 ≤ p2a) (hp2b : 0 ≤ p2b)
    (hc1 : 0 ≤ c1) (hc2 : 0 ≤ c2) (ha0 : 0 ≤ alloc) (ha1 : alloc ≤ 1) :
    (0 ≤ (processTimestep p1a p1b p2a p2b c1 c2 alloc band).t1Cash ∧
        0 ≤ (processTimestep p1a p1b p2a p2b c1 c2 alloc band).t2Cash) ∧
      ((processTimestep p1a p1b p2a p2b c1 c2 alloc band).rebal ≠ 0 →
        (processTimestep p1a p1b p2a p2b c1 c2 alloc band).t1Cash /
            ((processTimestep p1a p1b p2a p2b c1 c2 alloc band).t1Cash +
              (processTimestep p1a p1b p2a p2b c1 c2 alloc band).t2Cash) =
          alloc) := by
  unfold processTimestep
  exact stepCore_spec _ _ _ _
    (mul_nonneg hc1 (one_add_growthRet_nonneg hp1a hp1b))
    (mul_nonneg hc2 (one_add_growthRet_nonneg hp2a hp2b)) ha0 ha1

/-- Loop invariant of the simulation: nonnegative cash is preserved, and every
step with a nonzero recorded rebalance lands exactly on the target fraction. -/
theorem simulateSteps_invariant (alloc band : ℚ) (ha0 : 0 ≤ alloc)
    (ha1 : alloc ≤ 1) (ps1 : List (ℚ × ℚ)) :
    ∀ (ps2 : List (ℚ × ℚ)) (c1 c2 : ℚ), 0 ≤ c1 → 0 ≤ c2 →
      (∀ p ∈ ps1, 0 ≤ p.1 ∧ 0 ≤ p.2) → (∀ p ∈ ps2, 0 ≤ p.1 ∧ 0 ≤ p.2) →
      ∀ row ∈ simulateSteps alloc band c1 c2 ps1 ps2,
        (0 ≤ row.t1Cash ∧ 0 ≤ row.t2Cash) ∧
          (row.rebal ≠ 0 →
            row.t1Cash / (row.t1Cash + row.t2Cash) = alloc) := by
  induction ps1 with
  | nil =>
    intro ps2 c1 c2 _ _ _ _ row hrow
    simp [simulateSteps] at hrow
  | cons p ps ih =>
    intro ps2 c1 c2 hc1 hc2 hps1 hps2 row hrow
    cases ps2 with
    | nil => simp [simulateSteps] at hrow
    | cons q qs =>
      rw [simulateSteps] at hrow
      have hp := hps1 p (List.mem_cons_self p ps)
      have hq := hps2 q (List.mem_cons_self q qs)
      have hstep := processTimestep_spec p.1 p.2 q.1 q.2 c1 c2 alloc band
        hp.1 hp.2 hq.1 hq.2 hc1 hc2 ha0 ha1
      rcases List.mem_cons.mp hrow with hEq | hTail
      · rw [hEq]
        exact hstep
      · exact ih qs _ _ hstep.1.1 hstep.1.2
          (fun x hx => hps1 x (List.mem_cons_of_mem p hx))
          (fun x hx => hps2 x (List.mem_cons_of_mem q hx)) row hTail

theorem mem_consecutivePairs_nonneg {xs : List ℚ} (hxs : ∀ x ∈ xs, 0 ≤ x) :
    ∀ p ∈ consecutivePairs xs, 0 ≤ p.1 ∧ 0 ≤ p.2 := by
  intro p hp
  rcases List.of_mem_zip hp with ⟨h1, h2⟩
  exact ⟨hxs p.1 h1, hxs p.2 (List.mem_of_mem_tail h2)⟩

theorem processTimestep_conserves (p1a p1b p2a p2b c1 c2 alloc band : ℚ) :
    (processTimestep p1a p1b p2a p2b c1 c2 alloc band).t1Cash +
        (processTimestep p1a p1b p2a p2b c1 c2 alloc band).t2Cash =
      (processTimestep p1a p1b p2a p2b c1 c2 alloc 0).t1Cash +
        (processTimestep p1a p1b p2a p2b c1 c2 alloc 0).t2Cash := by
  unfold processTimestep
  rw [stepCore_total, stepCore_total]

/-- With a zero asset-1 target and zero asset-1 cash neither trigger fires. -/
theorem stepCore_alloc_zero (g2 b : ℚ) :
    stepCore 0 g2 0 b = ⟨0, g2, 0, .noTrade⟩ := by
  simp only [stepCore, zero_add, zero_div, ite_self]
  split_ifs with hb hA hB
  · linarith
  · linarith
  · rfl
  · rfl

/-- With a full asset-1 target, all cash in asset 1 and a nonzero total,
neither trigger fires. -/
theorem stepCore_alloc_one (g1 b : ℚ) (hg1 : g1 ≠ 0) :
    stepCore g1 0 1 b = ⟨g1, 0, 0, .noTrade⟩ := by
  have h1 : (if g1 + 0 ≠ 0 then g1 / (g1 + 0) else 0) = 1 := by
    rw [add_zero]
    rw [if_pos hg1]
    exact div_self hg1
  simp only [stepCore]
  rw [h1]
  split_ifs with hb hA hB
  · linarith
  · linarith
  · rfl
  · rfl

/-! ### Claim C2 -/

/-- Claim C2 (counterexample): with asset-1 prices 100, 110, 121, flat asset-2
prices, a half target allocation, a zero rebalance rate and 10000 starting
cash, the recorded rebalance at step 1 is not 250 — the entire rebalance check
is gated behind a strictly positive rebalance rate, so no rebalance fires. -/
theorem C2_counterexample :
    ¬ ((runStrategyNumba [100, 110, 121] [100, 100, 100] (1/2) 0 10000).map
        StepResult.rebal).get? 1 = some 250 := by
  norm_num [runStrategyNumba, simulateSteps, consecutivePairs, processTimestep,
    stepCore, growthRet]

/-- Claim C2 (amended): on that input the simulation never rebalances: the
run is pure growth with cash1 = 5000, 5500, 6050, cash2 = 5000 throughout and
a zero rebalance trace, because a zero rebalance rate disables the band check
entirely. -/
theorem C2_amended :
    runStrategyNumba [100, 110, 121] [100, 100, 100] (1/2) 0 10000 =
      [⟨5000, 5000, 0, .noTrade⟩, ⟨5500, 5000, 0, .noTrade⟩,
        ⟨6050, 5000, 0, .noTrade⟩] := by
  norm_num [runStrategyNumba, simulateSteps, consecutivePairs, processTimestep,
    stepCore, growthRet]

/-! ### Claim C3 -/

/-- Claim C3: for every simulation input with nonnegative prices, nonnegative
starting cash and a target allocation in the unit interval, every timestep
recording a nonzero rebalance ends with the asset-1 fraction exactly equal to
the target allocation: the rebalance is full, never partial. -/
theorem C3_rebalance_restores_target (t1Prices t2Prices : List ℚ)
    (alloc band cash : ℚ)
    (hp1 : ∀ p ∈ t1Prices, 0 ≤ p) (hp2 : ∀ p ∈ t2Prices, 0 ≤ p)
    (hcash : 0 ≤ cash) (ha0 : 0 ≤ alloc) (ha1 : alloc ≤ 1) :
    ∀ row ∈ runStrategyNumba t1Prices t2Prices alloc band cash,
      row.rebal ≠ 0 → row.t1Cash / (row.t1Cash + row.t2Cash) = alloc := by
  intro row hrow hne
  simp only [runStrategyNumba] at hrow
  rcases List.mem_cons.mp hrow with hEq | hTail
  · rw [hEq] at hne
    exact absurd rfl hne
  · exact (simulateSteps_invariant alloc band ha0 ha1 _ _ _ _
      (mul_nonneg hcash ha0) (mul_nonneg hcash (by linarith))
      (mem_consecutivePairs_nonneg hp1) (mem_consecutivePairs_nonneg hp2)
      row hTail).2 hne

/-- Claim C3 (witness): a concrete run in which a rebalance fires at step 1
and the restored allocation is exactly one half. -/
theorem C3_witness :
    (⟨5250, 5250, 250, .sellT1⟩ : StepResult) ∈
        runStrategyNumba [100, 110] [100, 100] (1/2) (1/100) 10000 ∧
      (5250 : ℚ) / (5250 + 5250) = 1/2 := by
  have hmem : (⟨5250, 5250, 250, .sellT1⟩ : StepResult) ∈
      runStrategyNumba [100, 110] [100, 100] (1/2) (1/100) 10000 := by
    norm_num [runStrategyNumba, simulateSteps, consecutivePairs,
      processTimestep, stepCore, growthRet, rebalanceSellT1, List.mem_cons]
  refine ⟨hmem, ?_⟩
  have h := C3_rebalance_restores_target [100, 110] [100, 100] (1/2) (1/100)
    10000 (by intro p hp; fin_cases hp <;> norm_num)
    (by intro p hp; fin_cases hp <;> norm_num) (by norm_num) (by norm_num)
    (by norm_num) ⟨5250, 5250, 250, .sellT1⟩ hmem (by norm_num)
  simpa using h

/-! ### Claim C4 -/

/-- Claim C4: the total-cash column is everywhere the sum of the two per-asset
cash columns, and a rebalance step leaves the step's cash sum identical to the
pure-growth (pre-rebalance) sum — cash is moved, never created or destroyed.
The simulation carries no trading friction, so this is its only behavior. -/
theorem C4_cash_conservation :
    (∀ (t1Prices t2Prices : List ℚ) (alloc band cash : ℚ),
        ∀ row ∈ runStrategyOutput t1Prices t2Prices alloc band cash,
          row.totalCash = row.t1Cash + row.t2Cash) ∧
      ∀ p1a p1b p2a p2b c1 c2 alloc band : ℚ,
        (processTimestep p1a p1b p2a p2b c1 c2 alloc band).t1Cash +
            (processTimestep p1a p1b p2a p2b c1 c2 alloc band).t2Cash =
          (processTimestep p1a p1b p2a p2b c1 c2 alloc 0).t1Cash +
            (processTimestep p1a p1b p2a p2b c1 c2 alloc 0).t2Cash := by
  constructor
  · intro t1Prices t2Prices alloc band cash row hrow
    rcases List.mem_map.mp hrow with ⟨r, _, hEq⟩
    rw [← hEq]
  · exact processTimestep_conserves

/-- Claim C4 (witness): the conservation statement evaluated on a concrete
run containing a rebalance. -/
theorem C4_witness :
    ((⟨5250, 5250, 10500, 250⟩ : OutputRow) ∈
        runStrategyOutput [100, 110] [100, 100] (1/2) (1/100) 10000) ∧
      (10500 : ℚ) = 5250 + 5250 := by
  have hmem : (⟨5250, 5250, 10500, 250⟩ : OutputRow) ∈
      runStrategyOutput [100, 110] [100, 100] (1/2) (1/100) 10000 := by
    norm_num [runStrategyOutput, runStrategyNumba, simulateSteps,
      consecutivePairs, processTimestep, stepCore, growthRet, rebalanceSellT1,
      List.mem_cons]
  exact ⟨hmem, C4_cash_conservation.1 [100, 110] [100, 100] (1/2) (1/100)
    10000 ⟨5250, 5250, 10500, 250⟩ hmem⟩

/-! ### Claims C8 and C10: guard behavior and boundary allocations -/

theorem stepCore_zeros (a b : ℚ) :
    (stepCore 0 0 a b).t1Cash = 0 ∧ (stepCore 0 0 a b).t2Cash = 0 ∧
      (stepCore 0 0 a b).rebal = 0 := by
  simp only [stepCore, rebalanceSellT1, rebalanceSellT2]
  split_ifs <;> norm_num

theorem mem_consecutivePairs_pos {xs : List ℚ} (hxs : ∀ x ∈ xs, 0 < x) :
    ∀ p ∈ consecutivePairs xs, 0 < p.1 ∧ 0 < p.2 := by
  intro p hp
  rcases List.of_mem_zip hp with ⟨h1, h2⟩
  exact ⟨hxs p.1 h1, hxs p.2 (List.mem_of_mem_tail h2)⟩

/-- With a zero target allocation, zero asset-1 cash and positive asset-2
cash over positive prices, the loop never rebalances and agrees with the
zero-band (pure growth) loop. -/
theorem simulateSteps_boundary_zero (band : ℚ) (ps1 : List (ℚ × ℚ)) :
    ∀ (ps2 : List (ℚ × ℚ)) (c2 : ℚ), 0 < c2 →
      (∀ p ∈ ps2, 0 < p.1 ∧ 0 < p.2) →
      simulateSteps 0 band 0 c2 ps1 ps2 = simulateSteps 0 0 0 c2 ps1 ps2 ∧
        ∀ row ∈ simulateSteps 0 band 0 c2 ps1 ps2,
          row.rebal = 0 ∧ row.branch = .noTrade := by
  induction ps1 with
  | nil =>
    intro ps2 c2 _ _
    constructor
    · rfl
    · intro row hrow
      simp [simulateSteps] at hrow
  | cons p ps ih =>
    intro ps2 c2 hc2 hps2
    cases ps2 with
    | nil =>
      constructor
      · rfl
      · intro row hrow
        simp [simulateSteps] at hrow
    | cons q qs =>
      have hq := hps2 q (List.mem_cons_self q qs)
      have hg2 : 0 < c2 * (1 + growthRet q.1 q.2) :=
        mul_pos hc2 (one_add_growthRet_pos hq.1 hq.2)
      have hstep : processTimestep p.1 p.2 q.1 q.2 0 c2 0 band =
          ⟨0, c2 * (1 + growthRet q.1 q.2), 0, .noTrade⟩ := by
        unfold processTimestep
        rw [zero_mul]
        exact stepCore_alloc_zero _ _
      have hstep0 : processTimestep p.1 p.2 q.1 q.2 0 c2 0 0 =
          ⟨0, c2 * (1 + growthRet q.1 q.2), 0, .noTrade⟩ := by
        unfold processTimestep
        rw [zero_mul]
        exact stepCore_zero_band _ _ _
      have htails := ih qs (c2 * (1 + growthRet q.1 q.2)) hg2
        (fun x hx => hps2 x (List.mem_cons_of_mem q hx))
      rw [simulateSteps, simulateSteps, hstep, hstep0]
      constructor
      · rw [htails.1]
      · intro row hrow
        rcases List.mem_cons.mp hrow with hEq | hTail
        · rw [hEq]
          exact ⟨rfl, rfl⟩
        · exact htails.2 row hTail

/-- With a full target allocation, positive asset-1 cash and zero asset-2
cash over positive prices, the loop never rebalances and agrees with the
zero-band (pure growth) loop. -/
theorem simulateSteps_boundary_one (band : ℚ) (ps1 : List (ℚ × ℚ)) :
    ∀ (ps2 : List (ℚ × ℚ)) (c1 : ℚ), 0 < c1 →
      (∀ p ∈ ps1, 0 < p.1 ∧ 0 < p.2) →
      simulateSteps 1 band c1 0 ps1 ps2 = simulateSteps 1 0 c1 0 ps1 ps2 ∧
        ∀ row ∈ simulateSteps 1 band c1 0 ps1 ps2,
          row.rebal = 0 ∧ row.branch = .noTrade := by
  induction ps1 with
  | nil =>
    intro ps2 c1 _ _
    constructor
    · rfl
    · intro row hrow
      simp [simulateSteps] at hrow
  | cons p ps ih =>
    intro ps2 c1 hc1 hps1
    cases ps2 with
    | nil =>
      constructor
      · rfl
      · intro row hrow
        simp [simulateSteps] at hrow
    | cons q qs =>
      have hp := hps1 p (List.mem_cons_self p ps)
      have hg1 : 0 < c1 * (1 + growthRet p.1 p.2) :=
        mul_pos hc1 (one_add_growthRet_pos hp.1 hp.2)
      have hstep : processTimestep p.1 p.2 q.1 q.2 c1 0 1 band =
          ⟨c1 * (1 + growthRet p.1 p.2), 0, 0, .noTrade⟩ := by
        unfold processTimestep
        rw [zero_mul]
        exact stepCore_alloc_one _ _ (ne_of_gt hg1)
      have hstep0 : processTimestep p.1 p.2 q.1 q.2 c1 0 1 0 =
          ⟨c1 * (1 + growthRet p.1 p.2), 0, 0, .noTrade⟩ := by
        unfold processTimestep
        rw [zero_mul]
        exact stepCore_zero_band _ _ _
      have htails := ih qs (c1 * (1 + growthRet p.1 p.2)) hg1
        (fun x hx => hps1 x (List.mem_cons_of_mem p hx))
      rw [simulateSteps, simulateSteps, hstep, hstep0]
      constructor
      · rw [htails.1]
      · intro row hrow
        rcases List.mem_cons.mp hrow with hEq | hTail
        · rw [hEq]
          exact ⟨rfl, rfl⟩
        · exact htails.2 row hTail

/-- Claim C8 (counterexample): on a path where both prices drop to zero the
post-growth total is zero, yet the sell-asset-2 branch of the conditional
still executes at that timestep (with a zero sell, so the recorded rebalance
is zero): the claim that neither rebalance branch executes is false. -/
theorem C8_counterexample :
    (runStrategyNumba [100, 0] [100, 0] (1/2) (1/100) 10000).get? 1 =
        some ⟨0, 0, 0, .sellT2⟩ ∧
      RebalBranch.sellT2 ≠ RebalBranch.noTrade := by
  constructor
  · norm_num [runStrategyNumba, simulateSteps, consecutivePairs,
      processTimestep, stepCore, growthRet, rebalanceSellT2]
  · intro h
    exact RebalBranch.noConfusion h

/-- Claim C8 (amended): at a timestep whose post-growth total is exactly zero
the allocation fraction is taken as zero and the step leaves both cash values
at their (zero) post-growth values with a zero recorded rebalance — the
sell-asset-2 branch may still execute, but its sell amount is zero; moreover
output cash values are never negative under valid inputs (nonnegative prices
and starting cash, target allocation in the unit interval). -/
theorem C8_amended :
    (∀ p1a p1b p2a p2b c1 c2 alloc band : ℚ,
        0 ≤ p1a → 0 ≤ p1b → 0 ≤ p2a → 0 ≤ p2b → 0 ≤ c1 → 0 ≤ c2 →
        (processTimestep p1a p1b p2a p2b c1 c2 alloc 0).t1Cash +
            (processTimestep p1a p1b p2a p2b c1 c2 alloc 0).t2Cash = 0 →
        (processTimestep p1a p1b p2a p2b c1 c2 alloc band).t1Cash = 0 ∧
          (processTimestep p1a p1b p2a p2b c1 c2 alloc band).t2Cash = 0 ∧
          (processTimestep p1a p1b p2a p2b c1 c2 alloc band).rebal = 0) ∧
      ∀ (t1Prices t2Prices : List ℚ) (alloc band cash : ℚ),
        (∀ p ∈ t1Prices, 0 ≤ p) → (∀ p ∈ t2Prices, 0 ≤ p) → 0 ≤ cash →
        0 ≤ alloc → alloc ≤ 1 →
        ∀ row ∈ runStrategyNumba t1Prices t2Prices alloc band cash,
          0 ≤ row.t1Cash ∧ 0 ≤ row.t2Cash := by
  constructor
  · intro p1a p1b p2a p2b c1 c2 alloc band hp1a hp1b hp2a hp2b hc1 hc2 hzero
    have hg1 : 0 ≤ c1 * (1 + growthRet p1a p1b) :=
      mul_nonneg hc1 (one_add_growthRet_nonneg hp1a hp1b)
    have hg2 : 0 ≤ c2 * (1 + growthRet p2a p2b) :=
      mul_nonneg hc2 (one_add_growthRet_nonneg hp2a hp2b)
    have hsum : c1 * (1 + growthRet p1a p1b) + c2 * (1 + growthRet p2a p2b) = 0 := by
      have h := hzero
      unfold processTimestep at h
      rw [stepCore_zero_band] at h
      exact h
    have e1 : c1 * (1 + growthRet p1a p1b) = 0 := by linarith
    have e2 : c2 * (1 + growthRet p2a p2b) = 0 := by linarith
    unfold processTimestep
    rw [e1, e2]
    exact stepCore_zeros alloc band
  · intro t1Prices t2Prices alloc band cash hp1 hp2 hcash ha0 ha1 row hrow
    simp only [runStrategyNumba] at hrow
    rcases List.mem_cons.mp hrow with hEq | hTail
    · rw [hEq]
      exact ⟨mul_nonneg hcash ha0, mul_nonneg hcash (by linarith)⟩
    · exact (simulateSteps_invariant alloc band ha0 ha1 _ _ _ _
        (mul_nonneg hcash ha0) (mul_nonneg hcash (by linarith))
        (mem_consecutivePairs_nonneg hp1) (mem_consecutivePairs_nonneg hp2)
        row hTail).1

/-- Claim C8 (witness): the amended guard statement evaluated on the concrete
zero-total step of the counterexample run. -/
theorem C8_witness :
    (processTimestep 100 0 100 0 5000 5000 (1/2) (1/100)).t1Cash = 0 ∧
      (processTimestep 100 0 100 0 5000 5000 (1/2) (1/100)).t2Cash = 0 ∧
      (processTimestep 100 0 100 0 5000 5000 (1/2) (1/100)).rebal = 0 :=
  C8_amended.1 100 0 100 0 5000 5000 (1/2) (1/100) (by norm_num) (by norm_num)
    (by norm_num) (by norm_num) (by norm_num) (by norm_num)
    (by norm_num [processTimestep, stepCore, growthRet])

/-- Claim C10: with strictly positive prices, positive starting cash and a
target allocation of zero or one, no rebalance ever triggers — every row
records a zero rebalance via the no-trade branch (so neither division helper
is ever invoked) — and the run coincides with the zero-band pure buy-and-hold
run at the initial split. -/
theorem C10_boundary_buy_and_hold (t1Prices t2Prices : List ℚ)
    (alloc band cash : ℚ)
    (hp1 : ∀ p ∈ t1Prices, 0 < p) (hp2 : ∀ p ∈ t2Prices, 0 < p)
    (hcash : 0 < cash) (hb : alloc = 0 ∨ alloc = 1) :
    (∀ row ∈ runStrategyNumba t1Prices t2Prices alloc band cash,
        row.rebal = 0 ∧ row.branch = .noTrade) ∧
      runStrategyNumba t1Prices t2Prices alloc band cash =
        runStrategyNumba t1Prices t2Prices alloc 0 cash := by
  rcases hb with rfl | rfl
  · have hmain := simulateSteps_boundary_zero band (consecutivePairs t1Prices)
      (consecutivePairs t2Prices) cash hcash (mem_consecutivePairs_pos hp2)
    simp only [runStrategyNumba, mul_zero, sub_zero, mul_one]
    constructor
    · intro row hrow
      rcases List.mem_cons.mp hrow with hEq | hTail
      · rw [hEq]
        exact ⟨rfl, rfl⟩
      · exact hmain.2 row hTail
    · rw [hmain.1]
  · have hmain := simulateSteps_boundary_one band (consecutivePairs t1Prices)
      (consecutivePairs t2Prices) cash hcash (mem_consecutivePairs_pos hp1)
    simp only [runStrategyNumba, mul_one, sub_self, mul_zero]
    constructor
    · intro row hrow
      rcases List.mem_cons.mp hrow with hEq | hTail
      · rw [hEq]
        exact ⟨rfl, rfl⟩
      · exact hmain.2 row hTail
    · rw [hmain.1]

/-- Claim C10 (witness): the boundary statement evaluated on a concrete run
with a zero target allocation. -/
theorem C10_witness :
    (∀ row ∈ runStrategyNumba [100, 110] [100, 90] 0 (1/20) 1000,
        row.rebal = 0 ∧ row.branch = .noTrade) ∧
      runStrategyNumba [100, 110] [100, 90] 0 (1/20) 1000 =
        runStrategyNumba [100, 110] [100, 90] 0 0 1000 :=
  C10_boundary_buy_and_hold [100, 110] [100, 90] 0 (1/20) 1000
    (by intro p hp; fin_cases hp <;> norm_num)
    (by intro p hp; fin_cases hp <;> norm_num) (by norm_num) (Or.inl rfl)

/-! ### Claim C5: max drawdown -/

theorem foldl_min_mem (xs : List ℚ) :
    ∀ x : ℚ, xs.foldl min x = x ∨ xs.foldl min x ∈ xs := by
  induction xs with
  | nil => intro x; exact Or.inl rfl
  | cons y ys ih =>
    intro x
    rcases ih (min x y) with h | h
    · rcases min_choice x y with hxy | hxy
      · left
        rw [List.foldl_cons, h, hxy]
      · right
        rw [List.foldl_cons, h, hxy]
        exact List.mem_cons_self y ys
    · right
      rw [List.foldl_cons]
      exact List.mem_cons_of_mem y h

theorem seriesMin_mem {xs : List ℚ} {m : ℚ} (h : seriesMin xs = some m) :
    m ∈ xs := by
  cases xs with
  | nil => simp [seriesMin] at h
  | cons x ys =>
    simp only [seriesMin, Option.some.injEq] at h
    subst h
    rcases foldl_min_mem ys x with h2 | h2
    · rw [h2]
      exact List.mem_cons_self x ys
    · exact List.mem_cons_of_mem x h2

theorem cummaxAux_pairs (xs : List ℚ) :
    ∀ m : ℚ, 0 < m → (∀ x ∈ xs, 0 < x) →
      ∀ p ∈ xs.zip (cummaxAux m xs), 0 < p.1 ∧ p.1 ≤ p.2 ∧ 0 < p.2 := by
  induction xs with
  | nil => intro m _ _ p hp; simp [cummaxAux] at hp
  | cons x ys ih =>
    intro m hm hxs p hp
    rw [cummaxAux] at hp
    rcases List.mem_cons.mp hp with hEq | hTail
    · rw [hEq]
      have hx : 0 < x := hxs x (List.mem_cons_self x ys)
      exact ⟨hx, le_max_right m x, lt_max_of_lt_left hm⟩
    · exact ih (max m x) (lt_max_of_lt_left hm)
        (fun z hz => hxs z (List.mem_cons_of_mem x hz)) p hTail

theorem zip_cummax_pairs {xs : List ℚ} (hpos : ∀ x ∈ xs, 0 < x) :
    ∀ p ∈ xs.zip (cummax xs), 0 < p.1 ∧ p.1 ≤ p.2 ∧ 0 < p.2 := by
  cases xs with
  | nil => intro p hp; simp [cummax] at hp
  | cons x ys =>
    intro p hp
    rw [cummax] at hp
    have hx : 0 < x := hpos x (List.mem_cons_self x ys)
    rcases List.mem_cons.mp hp with hEq | hTail
    · rw [hEq]
      exact ⟨hx, le_refl x, hx⟩
    · exact cummaxAux_pairs ys x hx
        (fun z hz => hpos z (List.mem_cons_of_mem x hz)) p hTail

theorem drawdown_mem_bounds {xs : List ℚ} (hpos : ∀ x ∈ xs, 0 < x) {d : ℚ}
    (hd : d ∈ drawdownSeries xs) : -1 ≤ d ∧ d ≤ 0 := by
  rcases List.mem_map.mp hd with ⟨p, hp, hEq⟩
  have hfacts := zip_cummax_pairs hpos p hp
  constructor
  · rw [← hEq, le_div_iff₀ hfacts.2.2]
    have := hfacts.1
    linarith
  · rw [← hEq, div_le_iff₀ hfacts.2.2]
    have := hfacts.2.1
    linarith

/-- Claim C5 (counterexample): on the strictly increasing all-positive series
100, 110 the monolithic metrics computation reports a max_drawdown of 1/10,
which is positive — it is the minimum single-step percent change, not the
peak-to-trough drawdown (which is 0 here), so the claimed bound fails for it. -/
theorem C5_counterexample :
    monolithMaxDrawdown [100, 110] = some (1/10) ∧
      calculateMaxDrawdown [100, 110] = some 0 ∧ (0 : ℚ) < 1/10 := by
  refine ⟨?_, ?_, by norm_num⟩
  · norm_num [monolithMaxDrawdown, pctChange, seriesMin]
  · norm_num [calculateMaxDrawdown, drawdownSeries, cummax, cummaxAux,
      seriesMin]

/-- Claim C5 (amended): the metrics-module max drawdown is the minimum of the
pointwise peak-to-trough drawdown series, and for any all-positive cash series
it lies in the interval from -1 to 0 (in particular it is never positive);
the monolithic module instead reports the minimum single-step percent change,
for which the bound fails. -/
theorem C5_amended (xs : List ℚ) (hpos : ∀ x ∈ xs, 0 < x) :
    ∀ d, calculateMaxDrawdown xs = some d → -1 ≤ d ∧ d ≤ 0 := by
  intro d hd
  exact drawdown_mem_bounds hpos (seriesMin_mem hd)

/-- Claim C5 (witness): the bound evaluated on a concrete declining series
whose peak-to-trough drawdown is -1/10. -/
theorem C5_witness : (-1 : ℚ) ≤ -1/10 ∧ (-1/10 : ℚ) ≤ 0 :=
  C5_amended [100, 90] (by intro x hx; fin_cases hx <;> norm_num) (-1/10)
    (by norm_num [calculateMaxDrawdown, drawdownSeries, cummax, cummaxAux,
      seriesMin])

/-! ### Claim C6: CAGR and the absence of a domain check -/

/-- Claim C6 (counterexample): a cash series starting (and ending) at -5 has a
non-positive first value, yet the metrics computation returns a CAGR value
(here 0, since the ratio is 1) instead of failing with a DomainError — the
code contains no domain check at all. -/
theorem C6_counterexample :
    calculateMetricsCagr [-5, -5] 365 = some 0 ∧ ((-5 : ℝ) ≤ 0) := by
  constructor
  · unfold calculateMetricsCagr
    rw [if_neg (by norm_num : ¬(365 : ℤ) = 0)]
    have h1 : (([-5, -5] : List ℝ).headD 0) = -5 := rfl
    have h2 : (([-5, -5] : List ℝ).getLastD 0) = -5 := rfl
    rw [h1, h2]
    unfold cagrOf
    norm_num [Real.one_rpow]
  · norm_num

/-- Claim C6 (amended): the CAGR value equals (last / first) raised to
365.25 over the elapsed days, minus one, whenever the elapsed days are
nonzero; the computation raises only the division-by-zero error at exactly
zero elapsed days and performs no domain check (no DomainError exists): for
a non-positive first value or negative elapsed time it still returns a value. -/
theorem C6_amended (totalCash : List ℝ) (days : ℤ) :
    (days ≠ 0 →
        calculateMetricsCagr totalCash days =
          some ((totalCash.getLastD 0 / totalCash.headD 0) ^
              ((365.25 : ℝ) / (days : ℝ)) - 1)) ∧
      calculateMetricsCagr totalCash 0 = none := by
  constructor
  · intro hd
    unfold calculateMetricsCagr cagrOf
    rw [if_neg hd, one_div_div]
  · unfold calculateMetricsCagr
    rw [if_pos rfl]

/-- Claim C6 (witness): the amended formula evaluated at a concrete doubling
series over 365 days. -/
theorem C6_witness :
    calculateMetricsCagr [2, 4] 365 =
      some (((4 : ℝ) / 2) ^ ((365.25 : ℝ) / ((365 : ℤ) : ℝ)) - 1) := by
  have h := (C6_amended [2, 4] 365).1 (by norm_num)
  rw [h]
  rfl

/-! ### Claim C7: the risk-free rate never reaches the Sharpe computation -/

/-- Claim C7 (divergence): the Sharpe value produced by the metrics
computation differs from the specified formula with the caller's risk-free
rate applied: on the series 100, 200, 100 with a risk-free rate of 1/20 the
code returns the zero-rate Sharpe, which is not the excess-return Sharpe the
spec requires (the metrics function never receives nor forwards the rate). -/
theorem C7_risk_free_rate_dropped :
    calculateMetricsSharpe [100, 200, 100] ≠
      calculateSharpe [100, 200, 100] (1/20) := by
  have hret : pctChangeR [100, 200, 100] = [1, -1/2] := by
    norm_num [pctChangeR]
  have hex0 : (pctChangeR [100, 200, 100]).map (fun r => r - (0 : ℝ) / 252) =
      [1, -1/2] := by
    rw [hret]
    norm_num
  have hex1 :
      (pctChangeR [100, 200, 100]).map (fun r => r - (1 : ℝ) / 20 / 252) =
        [1 - 1/5040, -1/2 - 1/5040] := by
    rw [hret]
    norm_num
  have hmean0 : meanR [(1 : ℝ), -1/2] = 1/4 := by
    norm_num [meanR]
  have hmean1 : meanR [(1 : ℝ) - 1/5040, -1/2 - 1/5040] = 1/4 - 1/5040 := by
    norm_num [meanR]
  have hvar0 : sampleVar [(1 : ℝ), -1/2] = 9/8 := by
    norm_num [sampleVar, meanR]
  have hvar1 : sampleVar [(1 : ℝ) - 1/5040, -1/2 - 1/5040] = 9/8 := by
    norm_num [sampleVar, meanR]
  have hsne : Real.sqrt (9/8) ≠ 0 := by
    rw [Real.sqrt_ne_zero']
    norm_num
  have h252 : Real.sqrt 252 ≠ 0 := by
    rw [Real.sqrt_ne_zero']
    norm_num
  simp only [calculateMetricsSharpe, calculateSharpe, sampleStd]
  rw [hex0, hex1, hvar0, hvar1, hmean0, hmean1, if_neg hsne, if_neg hsne]
  intro heq
  have h1 := mul_right_cancel₀ h252 heq
  have h2 : ((1 : ℝ)/4) = 1/4 - 1/5040 := by
    have h3 := congrArg (fun z => z * Real.sqrt (9/8)) h1
    simpa [div_mul_cancel₀, hsne] using h3
  norm_num at h2

/-! ### Claim C1: cache fingerprint coverage -/

/-- Claim C1 (divergence): the fingerprint serializes only seven fields, so
two full parameter contexts that differ only in the trade cost (or only in the
risk-free rate) receive identical cache keys, contrary to the required key
separation; neither trade_cost nor risk_free_rate is among the serialized dict
keys, though the spec requires both (and the grid-search caller passes both). -/
theorem C1_fingerprint_ignores_cost_fields :
    fingerprintOf ⟨"2010-01-04", "2024-12-31", "SPY", "GLD", "0.5", "0.05",
        "10000.0", "0.0", "0.0"⟩ =
      fingerprintOf ⟨"2010-01-04", "2024-12-31", "SPY", "GLD", "0.5", "0.05",
        "10000.0", "0.01", "0.0"⟩ ∧
    fingerprintOf ⟨"2010-01-04", "2024-12-31", "SPY", "GLD", "0.5", "0.05",
        "10000.0", "0.0", "0.0"⟩ =
      fingerprintOf ⟨"2010-01-04", "2024-12-31", "SPY", "GLD", "0.5", "0.05",
        "10000.0", "0.0", "0.02"⟩ ∧
    (⟨"2010-01-04", "2024-12-31", "SPY", "GLD", "0.5", "0.05",
        "10000.0", "0.0", "0.0"⟩ : ParameterPoint) ≠
      ⟨"2010-01-04", "2024-12-31", "SPY", "GLD", "0.5", "0.05",
        "10000.0", "0.01", "0.0"⟩ ∧
    "trade_cost" ∉ hashedParamFields ∧
    "risk_free_rate" ∉ hashedParamFields ∧
    "trade_cost" ∈ specFingerprintFields ∧
    "risk_free_rate" ∈ specFingerprintFields := by
  refine ⟨rfl, rfl, ?_, by decide, by decide, by decide, by decide⟩
  intro h
  have h2 := congrArg ParameterPoint.tradeCostRepr h
  simp at h2

/-! ### Claim C9: grid completeness -/

theorem processParams_fst {M : Type} (cache : ℚ × ℚ → Option M)
    (compute : ℚ × ℚ → M) (rate alloc : ℚ) :
    (processParams cache compute rate alloc).1.rateVal = rate ∧
      (processParams cache compute rate alloc).1.allocVal = alloc := by
  unfold processParams
  cases cache (rate, alloc) <;> exact ⟨rfl, rfl⟩

/-- Claim C9: for any cache contents and any metric computation, the grid loop
returns exactly one result row per pair in the Cartesian product of the two
input grids — the projection of the rows to their (rate, allocation) pairs is
exactly the Cartesian product list, and the row count is the product of the
grid sizes — regardless of which cells were cache hits. -/
theorem C9_grid_completeness {M : Type} (cache : ℚ × ℚ → Option M)
    (compute : ℚ × ℚ → M) (rates allocs : List ℚ) :
    (processGrid cache compute rates allocs).1.length =
        rates.length * allocs.length ∧
      (processGrid cache compute rates allocs).1.map
          (fun row => (row.rateVal, row.allocVal)) =
        rates.flatMap (fun rate => allocs.map (fun alloc => (rate, alloc))) := by
  induction rates with
  | nil => exact ⟨by simp [processGrid], by simp [processGrid]⟩
  | cons rate rs ih =>
    constructor
    · simp only [processGrid, List.length_append, List.length_map,
        List.length_cons, ih.1]
      ring
    · have hfun :
          ((fun row : GridRow M => (row.rateVal, row.allocVal)) ∘
            (fun alloc => (processParams cache compute rate alloc).1)) =
          fun alloc => (rate, alloc) := by
        funext alloc
        simp only [Function.comp_apply]
        rw [(processParams_fst cache compute rate alloc).1,
          (processParams_fst cache compute rate alloc).2]
      simp only [processGrid, List.map_append, List.map_map, List.flatMap_cons,
        hfun, ih.2]
